import Mathlib

/-!
Verification of the DataRow component (src/ts/Data/DataRow.ts).

The embedding is shallow: the mutable JS object holding the columns is an
association list with the JS property semantics (assignment updates the
first matching key in place or appends; delete removes the key), and the
class instance is a state record threaded through the operations.  JS
numbers appear here as Int, which is exact for every number the claims
touch (epoch milliseconds from Date.getTime and the literal 0).  The
external collaborators that DataRow imports from outside the analysed
sources (the event utilities addEvent and fireEvent, the deep-copy utility
merge, the id generator uniqueKey, and the DataTable class) are modelled
from the specification; each such definition carries a doc comment saying
so.
-/

set_option autoImplicit false

namespace DataRowSpec

/-- The JSON tree produced by serialisation.  By construction it can hold
only booleans, null, numbers, strings, objects and arrays, so a value of
this type can contain no Date object and no DataTable object. -/
inductive JSONValue where
  | bool (b : Bool)
  | null
  | num (n : Int)
  | str (s : String)
  | obj (fields : List (String × JSONValue))
  | arr (elems : List JSONValue)

/-- Modelled from the spec: DataTable is an opaque collaborator offering
an instance method toJSON and a static fromJSON (spec section 6); its code
is not among the analysed sources, so a table is represented by the JSON
value it serialises to. -/
structure DataTable where
  json : JSONValue

/-- Modelled from the spec: the Table delegates serialisation to its own
toJSON. -/
def DataTable.toJSON (t : DataTable) : JSONValue := t.json

/-- Modelled from the spec: the static reconstruction function of the
Table collaborator. -/
def DataTable.fromJSON (j : JSONValue) : DataTable := ⟨j⟩

/-- DataRow.ColumnTypes: boolean, null, number, string, Date, DataTable or
undefined.  A Date is represented by its getTime value in epoch
milliseconds; undef is the JS value undefined. -/
inductive ColumnValue where
  | bool (b : Bool)
  | null
  | num (n : Int)
  | str (s : String)
  | date (time : Int)
  | table (t : DataTable)
  | undef

/-- DataRow.Columns: a JS record from column key to column value, as an
association list in property insertion order. -/
abbrev Columns := List (String × ColumnValue)

/-- JS property assignment obj[k] = v: if the key is an own property the
value is updated in place, otherwise the new property is appended. -/
def assocSet {α : Type} (l : List (String × α)) (k : String) (v : α) :
    List (String × α) :=
  if l.any (fun kv => kv.1 == k) then
    l.map (fun kv => if kv.1 == k then (k, v) else kv)
  else
    l ++ [(k, v)]

/-- JS property deletion delete obj[k]. -/
def assocDelete {α : Type} (l : List (String × α)) (k : String) :
    List (String × α) :=
  l.filter (fun kv => kv.1 != k)

/-- Modelled from the spec: a listener registration held by the Notifier
(addEvent).  For the behaviour the claims exercise, a listener is the
event name it subscribes to together with whether it cancels the
pre-event (spec sections 4.3 and 6). -/
structure Listener where
  event : String
  cancels : Bool
deriving DecidableEq

/-- The state of a DataRow instance: the readonly id, the private columns
record, and the listeners registered on the instance. -/
structure RowState where
  id : String
  columns : Columns
  listeners : List Listener

/-- An emitted event: either a column event carrying columnKey and
columnValue, or a row event with an empty payload. -/
inductive RowEvent where
  | columnEvent (type : String) (columnKey : String) (columnValue : ColumnValue)
  | rowEvent (type : String)

/-- The outcome of one mutator call: the returned boolean, the state of
the row afterwards, and the events fired during the call in order. -/
structure OpResult where
  succeeded : Bool
  row : RowState
  events : List RowEvent

/-- Modelled from the spec: fireEvent runs the pre-event listeners and the
default action runs unless some registered listener for that event cancels
it (spec sections 4.3 and 6). -/
def vetoes (listeners : List Listener) (ev : String) : Bool :=
  listeners.any (fun l => l.event == ev && l.cancels)

/-- The DataRow constructor (DataRow.ts lines 86 to 100).  The input
record is deep-copied by merge (modelled from the spec as a copy with the
same content), a string-typed id entry is adopted as the identity and
otherwise a fresh uniqueKey is used (the generator is external, so the
fresh key is a parameter here), and the id entry is deleted from the
stored columns in every case. -/
def mkDataRow (columns : Columns) (freshId : String) : RowState :=
  { id :=
      match columns.lookup "id" with
      | some (ColumnValue.str s) => s
      | _ => freshId,
    columns := assocDelete columns "id",
    listeners := [] }

/-- DataRow.getColumnKeys (lines 195 to 197): Object.keys of the columns
record. -/
def getColumnKeys (s : RowState) : List String :=
  s.columns.map Prod.fst

/-- DataRow.getColumnCount (lines 191 to 193). -/
def getColumnCount (s : RowState) : Nat :=
  (getColumnKeys s).length

/-- DataRow.getColumn (lines 167 to 169): the stored value, undefined when
the key is absent. -/
def getColumn (s : RowState) (columnKey : String) : ColumnValue :=
  (s.columns.lookup columnKey).getD ColumnValue.undef

/-- DataRow.getAllColumns (lines 163 to 165): merge(this.columns).  In the
pure model the copy has the same content as the internal record; the
aliasing aspect is modelled separately with an explicit heap below. -/
def getAllColumns (s : RowState) : Columns :=
  s.columns

/-- DataRow.on (lines 228 to 233): addEvent registration, modelled from
the spec as appending a listener.  Named onEvent here because on is a
reserved token in Lean. -/
def onEvent (s : RowState) (event : String) (cancels : Bool) : RowState :=
  { s with listeners := s.listeners ++ [⟨event, cancels⟩] }

/-- DataRow.clear (lines 120 to 137).  The default action of the clearRow
event executes row.columns.length = 0; columns is a plain record, not an
array, so this assignment sets the property named length to the number 0
and removes nothing. -/
def clear (s : RowState) : OpResult :=
  if vetoes s.listeners "clearRow" then
    ⟨false, s, [RowEvent.rowEvent "clearRow"]⟩
  else
    ⟨true,
      { s with columns := assocSet s.columns "length" (ColumnValue.num 0) },
      [RowEvent.rowEvent "clearRow", RowEvent.rowEvent "afterClearRow"]⟩

/-- DataRow.deleteColumn (lines 139 to 161): the old value is captured
into columnValue before anything runs, an id key is rejected before any
event, otherwise the deleteColumn event fires and its default action
deletes the property and fires afterDeleteColumn.  The capture before
deletion is preserved here because every occurrence of the value reads
the pre-call state s. -/
def deleteColumn (s : RowState) (columnKey : String) : OpResult :=
  if columnKey == "id" then
    ⟨false, s, []⟩
  else if vetoes s.listeners "deleteColumn" then
    ⟨false, s,
      [RowEvent.columnEvent "deleteColumn" columnKey (getColumn s columnKey)]⟩
  else
    ⟨true,
      { s with columns := assocDelete s.columns columnKey },
      [RowEvent.columnEvent "deleteColumn" columnKey (getColumn s columnKey),
       RowEvent.columnEvent "afterDeleteColumn" columnKey
         (getColumn s columnKey)]⟩

/-- DataRow.insertColumn (lines 199 to 226): an id key or an existing key
is rejected before any event, otherwise the insertColumn event fires and
its default action stores the value and fires afterInsertColumn. -/
def insertColumn (s : RowState) (columnKey : String)
    (columnValue : ColumnValue) : OpResult :=
  if columnKey == "id" || (getColumnKeys s).contains columnKey then
    ⟨false, s, []⟩
  else if vetoes s.listeners "insertColumn" then
    ⟨false, s, [RowEvent.columnEvent "insertColumn" columnKey columnValue]⟩
  else
    ⟨true,
      { s with columns := assocSet s.columns columnKey columnValue },
      [RowEvent.columnEvent "insertColumn" columnKey columnValue,
       RowEvent.columnEvent "afterInsertColumn" columnKey columnValue]⟩

/-- DataRow.updateColumn (lines 274 to 298): only an id key is rejected
before any event; otherwise the updateColumn event fires and its default
action stores the value (insert or overwrite) and fires
afterUpdateColumn. -/
def updateColumn (s : RowState) (columnKey : String)
    (columnValue : ColumnValue) : OpResult :=
  if columnKey == "id" then
    ⟨false, s, []⟩
  else if vetoes s.listeners "updateColumn" then
    ⟨false, s, [RowEvent.columnEvent "updateColumn" columnKey columnValue]⟩
  else
    ⟨true,
      { s with columns := assocSet s.columns columnKey columnValue },
      [RowEvent.columnEvent "updateColumn" columnKey columnValue,
       RowEvent.columnEvent "afterUpdateColumn" columnKey columnValue]⟩

/-- The switch over typeof value in DataRow.toJSON (lines 250 to 268):
undefined is omitted, boolean, number and string are copied, null is
copied, a Date becomes getTime, a DataTable delegates to its toJSON. -/
def encodeColumn (v : ColumnValue) : Option JSONValue :=
  match v with
  | ColumnValue.undef => none
  | ColumnValue.bool b => some (JSONValue.bool b)
  | ColumnValue.num n => some (JSONValue.num n)
  | ColumnValue.str t => some (JSONValue.str t)
  | ColumnValue.null => some JSONValue.null
  | ColumnValue.date t => some (JSONValue.num t)
  | ColumnValue.table t => some (DataTable.toJSON t)

/-- DataRow.toJSON (lines 235 to 272): the json object starts with the
class discriminator and the id, then the loop walks the keys of
getAllColumns in order and assigns json[key] per the typeof switch. -/
def rowToJSON (s : RowState) : List (String × JSONValue) :=
  (getAllColumns s).foldl
    (fun json kv =>
      match encodeColumn kv.2 with
      | none => json
      | some j => assocSet json kv.1 j)
    [("_DATA_CLASS_NAME_", JSONValue.str "DataRow"),
     ("id", JSONValue.str s.id)]

/-- The test key[0] === the underscore character in DataRow.fromJSON
(line 54); false for the empty key, whose first character is
undefined. -/
def firstCharIsUnderscore (s : String) : Bool :=
  match s.data with
  | [] => false
  | c :: _ => c == '_'

/-- The per-value branch of DataRow.fromJSON (lines 60 to 74): a non-null
object value goes to DataTable.fromJSON, an array value is wrapped into a
synthetic DataTable envelope first, every other value is stored as is. -/
def decodeColumn (v : JSONValue) : ColumnValue :=
  match v with
  | JSONValue.obj o => ColumnValue.table (DataTable.fromJSON (JSONValue.obj o))
  | JSONValue.arr a => ColumnValue.table (DataTable.fromJSON
      (JSONValue.obj
        [("_DATA_CLASS_NAME_", JSONValue.str "DataTable"),
         ("rows", JSONValue.arr a)]))
  | JSONValue.bool b => ColumnValue.bool b
  | JSONValue.num n => ColumnValue.num n
  | JSONValue.str t => ColumnValue.str t
  | JSONValue.null => ColumnValue.null

/-- The while loop of DataRow.fromJSON (lines 52 to 75): keys are popped
from the end of Object.keys(json), so the entries arrive here already
reversed; keys whose first character is an underscore are skipped, every
other key is assigned into the columns record with its value from the
json object (keys of a JS object are unique, so each key carries its own
value). -/
def fromJSONLoop : List (String × JSONValue) → Columns → Columns
  | [], columns => columns
  | (k, v) :: rest, columns =>
    if firstCharIsUnderscore k then
      fromJSONLoop rest columns
    else
      fromJSONLoop rest (assocSet columns k (decodeColumn v))

/-- DataRow.fromJSON (lines 44 to 78): run the loop over the reversed
entries and hand the resulting record to the constructor.  The uniqueKey
fallback of the constructor is the freshId parameter. -/
def rowFromJSON (json : List (String × JSONValue)) (freshId : String) :
    RowState :=
  mkDataRow (fromJSONLoop json.reverse []) freshId

/-- The round trip of claim C2. -/
def roundTrip (s : RowState) (freshId : String) : RowState :=
  rowFromJSON (rowToJSON s) freshId

/-- The value a column decays to across the round trip: a Date becomes the
plain getTime number, every other value the claims allow is kept. -/
def primDecay (v : ColumnValue) : ColumnValue :=
  match v with
  | ColumnValue.date t => ColumnValue.num t
  | v => v

/-- Whether a value is one of the primitive kinds named by claim C2
(boolean, null, number, string) or a Date. -/
def isPrimOrDate (v : ColumnValue) : Bool :=
  match v with
  | ColumnValue.table _ => false
  | ColumnValue.undef => false
  | _ => true

/-- The column encoding exactly as the spec words it (section 4.5):
undefined omitted; null, boolean, number, string verbatim; a Date as its
epoch-millisecond number; a Table via its own toJSON. -/
def specEncodeEntry (kv : String × ColumnValue) :
    Option (String × JSONValue) :=
  match kv.2 with
  | ColumnValue.undef => none
  | ColumnValue.null => some (kv.1, JSONValue.null)
  | ColumnValue.bool b => some (kv.1, JSONValue.bool b)
  | ColumnValue.num n => some (kv.1, JSONValue.num n)
  | ColumnValue.str t => some (kv.1, JSONValue.str t)
  | ColumnValue.date t => some (kv.1, JSONValue.num t)
  | ColumnValue.table t => some (kv.1, DataTable.toJSON t)

/-- The optional serialised entry produced for one column by the toJSON
loop: the key paired with the encoded value, or nothing when the value is
omitted. -/
def encodeEntry (kv : String × ColumnValue) : Option (String × JSONValue) :=
  (encodeColumn kv.2).map (fun j => (kv.1, j))

/-- The per-entry decoding applied by the fromJSON loop. -/
def decodeEntry (kv : String × JSONValue) : String × ColumnValue :=
  (kv.1, decodeColumn kv.2)

/-- The per-entry decay of a column across the round trip. -/
def primDecayEntry (kv : String × ColumnValue) : String × ColumnValue :=
  (kv.1, primDecay kv.2)

/-- A heap of column records, for the aliasing claim C9: each cell is one
JS object holding a column mapping, addressed by its index. -/
structure Heap where
  cells : List Columns

/-- Reading the record stored at an address. -/
def Heap.read (h : Heap) (r : Nat) : Columns :=
  h.cells.getD r []

/-- Overwriting the record stored at an address (a mutation of that JS
object: adding, removing or reassigning entries). -/
def Heap.write (h : Heap) (r : Nat) (c : Columns) : Heap :=
  ⟨h.cells.set r c⟩

/-- A row as seen by the heap model of claim C9: the address of the
private columns record. -/
structure RowRef where
  colRef : Nat

/-- Modelled from the spec: merge deep-copies (spec section 6), so
DataRow.getAllColumns (lines 163 to 165) hands the caller a fresh object
holding a copy of the internal record, never the internal record
itself. -/
def getAllColumnsAlloc (h : Heap) (row : RowRef) : Nat × Heap :=
  (h.cells.length, ⟨h.cells ++ [h.read row.colRef]⟩)

/-- DataRow.getColumn in the heap model: read through the address of the
internal record. -/
def getColumnRef (h : Heap) (row : RowRef) (k : String) : ColumnValue :=
  ((h.read row.colRef).lookup k).getD ColumnValue.undef

/-- A sample row with one column of each primitive kind and a Date, used
as concrete input for witnesses. -/
def sampleRow : RowState :=
  ⟨"x",
    [("a", ColumnValue.num 1), ("b", ColumnValue.date 5),
     ("c", ColumnValue.str "hi"), ("d", ColumnValue.null),
     ("e", ColumnValue.bool true)], []⟩

/-- A sample row that also holds a nested table and an undefined value,
used as concrete input for the serialisation witness. -/
def sampleRowFull : RowState :=
  ⟨"y",
    [("a", ColumnValue.num 1), ("b", ColumnValue.date 5),
     ("t", ColumnValue.table ⟨JSONValue.null⟩), ("u", ColumnValue.undef)],
    []⟩

/-- One call through the public mutator API, for stating the invariant of
claim C4 over arbitrary operation sequences. -/
inductive RowOp where
  | insertOp (k : String) (v : ColumnValue)
  | updateOp (k : String) (v : ColumnValue)
  | deleteOp (k : String)
  | clearOp
  | onOp (event : String) (cancels : Bool)

/-- The state reached after one operation. -/
def applyOp (s : RowState) : RowOp → RowState
  | RowOp.insertOp k v => (insertColumn s k v).row
  | RowOp.updateOp k v => (updateColumn s k v).row
  | RowOp.deleteOp k => (deleteColumn s k).row
  | RowOp.clearOp => (clear s).row
  | RowOp.onOp e c => onEvent s e c

/-- The state reached after a sequence of operations. -/
def runOps (s : RowState) (ops : List RowOp) : RowState :=
  ops.foldl applyOp s

/-! Helper lemmas about the JS record operations. -/

theorem keys_assocSet_of_any {α : Type} (l : List (String × α)) (k : String)
    (v : α) (hc : l.any (fun kv => kv.1 == k) = true) :
    (assocSet l k v).map Prod.fst = l.map Prod.fst := by
  unfold assocSet
  rw [if_pos hc, List.map_map]
  apply List.map_congr_left
  intro kv _
  by_cases hk : (kv.1 == k) = true
  · simp only [Function.comp_apply, hk, if_pos]
    exact (eq_of_beq hk).symm
  · simp only [Bool.not_eq_true] at hk
    simp only [Function.comp_apply, hk, Bool.false_eq_true, if_false]

theorem mem_keys_of_assocSet {α : Type} {l : List (String × α)} {k x : String}
    {v : α} (hx : x ∈ (assocSet l k v).map Prod.fst) :
    x ∈ l.map Prod.fst ∨ x = k := by
  by_cases hc : l.any (fun kv => kv.1 == k) = true
  · rw [keys_assocSet_of_any l k v hc] at hx
    exact Or.inl hx
  · unfold assocSet at hx
    rw [if_neg hc, List.map_append, List.mem_append] at hx
    rcases hx with hx | hx
    · exact Or.inl hx
    · simp only [List.map_cons, List.map_nil, List.mem_singleton] at hx
      exact Or.inr hx

theorem assocSet_of_not_mem {α : Type} {l : List (String × α)} {k : String}
    (v : α) (h : k ∉ l.map Prod.fst) : assocSet l k v = l ++ [(k, v)] := by
  have hneg : ¬ (l.any (fun kv => kv.1 == k) = true) := by
    intro hc
    rw [List.any_eq_true] at hc
    rcases hc with ⟨kv, hkv, hbeq⟩
    exact h (List.mem_map.mpr ⟨kv, hkv, eq_of_beq hbeq⟩)
  unfold assocSet
  rw [if_neg hneg]

theorem assocDelete_of_not_mem {α : Type} {l : List (String × α)} {k : String}
    (h : k ∉ l.map Prod.fst) : assocDelete l k = l := by
  unfold assocDelete
  apply List.filter_eq_self.mpr
  intro kv hkv
  have : kv.1 ≠ k := fun he => h (he ▸ List.mem_map.mpr ⟨kv, hkv, rfl⟩)
  simpa [bne_iff_ne] using this

theorem not_mem_keys_assocDelete {α : Type} (l : List (String × α))
    (k : String) : k ∉ (assocDelete l k).map Prod.fst := by
  intro hx
  rcases List.mem_map.mp hx with ⟨kv, hkv, hfst⟩
  have hp := List.of_mem_filter hkv
  rw [bne_iff_ne] at hp
  exact hp hfst

theorem mem_keys_of_assocDelete {α : Type} {l : List (String × α)}
    {k x : String} (hx : x ∈ (assocDelete l k).map Prod.fst) :
    x ∈ l.map Prod.fst := by
  rcases List.mem_map.mp hx with ⟨kv, hkv, hfst⟩
  exact List.mem_map.mpr ⟨kv, List.mem_of_mem_filter hkv, hfst⟩

theorem lookup_eq_none_of_not_mem {α : Type} (l : List (String × α))
    (k : String) (h : k ∉ l.map Prod.fst) : l.lookup k = none := by
  induction l with
  | nil => rfl
  | cons kv t ih =>
    rw [List.map_cons, List.mem_cons, not_or] at h
    have hbeq : (k == kv.1) = false := beq_eq_false_iff_ne.mpr h.1
    rw [List.lookup_cons, hbeq]
    exact ih h.2

theorem lookup_append {α : Type} (l1 l2 : List (String × α)) (k : String) :
    (l1 ++ l2).lookup k =
      match l1.lookup k with
      | some v => some v
      | none => l2.lookup k := by
  induction l1 with
  | nil => simp
  | cons kv t ih =>
    obtain ⟨k1, v1⟩ := kv
    by_cases hbeq : (k == k1) = true
    · simp [List.lookup_cons, hbeq]
    · simp only [Bool.not_eq_true] at hbeq
      simp [List.lookup_cons, hbeq, ih]

theorem lookup_map_value {α β : Type} (l : List (String × α)) (f : α → β)
    (k : String) :
    (l.map (fun kv => (kv.1, f kv.2))).lookup k = (l.lookup k).map f := by
  induction l with
  | nil => rfl
  | cons kv t ih =>
    obtain ⟨k1, v1⟩ := kv
    by_cases hbeq : (k == k1) = true
    · simp [List.lookup_cons, hbeq]
    · simp only [Bool.not_eq_true] at hbeq
      simp [List.lookup_cons, hbeq, ih]

theorem lookup_reverse_of_nodup {α : Type} (l : List (String × α))
    (h : (l.map Prod.fst).Nodup) (k : String) :
    l.reverse.lookup k = l.lookup k := by
  induction l with
  | nil => rfl
  | cons kv t ih =>
    obtain ⟨k1, v1⟩ := kv
    rw [List.map_cons, List.nodup_cons] at h
    rw [List.reverse_cons, lookup_append]
    by_cases hbeq : (k == k1) = true
    · have hk : k = k1 := eq_of_beq hbeq
      have hnone : t.reverse.lookup k = none := by
        rw [ih h.2, hk]
        exact lookup_eq_none_of_not_mem t k1 h.1
      rw [hnone]
      simp [List.lookup_cons, hbeq]
    · simp only [Bool.not_eq_true] at hbeq
      rw [ih h.2]
      cases hl : t.lookup k with
      | none => simp [List.lookup_cons, hbeq, hl]
      | some v => simp [List.lookup_cons, hbeq, hl]

/-! Helper lemmas about the mutators. -/

theorem contains_eq_false_of_not_mem {l : List String} {k : String}
    (h : k ∉ l) : l.contains k = false := by
  rw [List.contains_eq_any_beq, List.any_eq_false]
  intro x hx hbx
  exact h (by rw [eq_of_beq hbx]; exact hx)

theorem contains_eq_true_of_mem {l : List String} {k : String}
    (h : k ∈ l) : l.contains k = true := by
  rw [List.contains_eq_any_beq, List.any_eq_true]
  exact ⟨k, h, beq_self_eq_true k⟩

theorem insertColumn_vetoed (s : RowState) (k : String) (v : ColumnValue)
    (h : vetoes s.listeners "insertColumn" = true) :
    (insertColumn s k v).succeeded = false ∧ (insertColumn s k v).row = s := by
  unfold insertColumn
  split
  · exact ⟨rfl, rfl⟩
  · try rw [h]
    exact ⟨rfl, rfl⟩

theorem updateColumn_vetoed (s : RowState) (k : String) (v : ColumnValue)
    (h : vetoes s.listeners "updateColumn" = true) :
    (updateColumn s k v).succeeded = false ∧ (updateColumn s k v).row = s := by
  unfold updateColumn
  split
  · exact ⟨rfl, rfl⟩
  · try rw [h]
    exact ⟨rfl, rfl⟩

theorem deleteColumn_vetoed (s : RowState) (k : String)
    (h : vetoes s.listeners "deleteColumn" = true) :
    (deleteColumn s k).succeeded = false ∧ (deleteColumn s k).row = s := by
  unfold deleteColumn
  split
  · exact ⟨rfl, rfl⟩
  · try rw [h]
    exact ⟨rfl, rfl⟩

theorem clear_vetoed (s : RowState)
    (h : vetoes s.listeners "clearRow" = true) :
    (clear s).succeeded = false ∧ (clear s).row = s := by
  unfold clear
  split
  · exact ⟨rfl, rfl⟩
  · next hv => exact absurd h hv

theorem insertColumn_id_of_guard (s : RowState) (k : String) (v : ColumnValue) :
    (insertColumn s k v).row.id = s.id := by
  unfold insertColumn
  split
  · rfl
  · split
    · rfl
    · rfl

theorem updateColumn_id_of_guard (s : RowState) (k : String) (v : ColumnValue) :
    (updateColumn s k v).row.id = s.id := by
  unfold updateColumn
  split
  · rfl
  · split
    · rfl
    · rfl

theorem deleteColumn_id_of_guard (s : RowState) (k : String) :
    (deleteColumn s k).row.id = s.id := by
  simp only [deleteColumn]
  split
  · rfl
  · split
    · rfl
    · rfl

theorem clear_id_of_guard (s : RowState) : (clear s).row.id = s.id := by
  unfold clear
  split
  · rfl
  · rfl

theorem applyOp_id_eq (s : RowState) (op : RowOp) :
    (applyOp s op).id = s.id := by
  cases op with
  | insertOp k v => exact insertColumn_id_of_guard s k v
  | updateOp k v => exact updateColumn_id_of_guard s k v
  | deleteOp k => exact deleteColumn_id_of_guard s k
  | clearOp => exact clear_id_of_guard s
  | onOp e c => rfl

theorem no_id_key_insertColumn (s : RowState) (k : String) (v : ColumnValue)
    (h : "id" ∉ getColumnKeys s) :
    "id" ∉ getColumnKeys (insertColumn s k v).row := by
  unfold insertColumn
  split
  · exact h
  · next hg =>
    split
    · exact h
    · intro hmem
      rcases mem_keys_of_assocSet hmem with hmem2 | hmem2
      · exact h hmem2
      · apply hg
        have hb : (k == "id") = true := beq_iff_eq.mpr hmem2.symm
        rw [hb]
        rfl

theorem no_id_key_updateColumn (s : RowState) (k : String) (v : ColumnValue)
    (h : "id" ∉ getColumnKeys s) :
    "id" ∉ getColumnKeys (updateColumn s k v).row := by
  unfold updateColumn
  split
  · exact h
  · next hg =>
    split
    · exact h
    · intro hmem
      rcases mem_keys_of_assocSet hmem with hmem2 | hmem2
      · exact h hmem2
      · exact hg (beq_iff_eq.mpr hmem2.symm)

theorem no_id_key_deleteColumn (s : RowState) (k : String)
    (h : "id" ∉ getColumnKeys s) :
    "id" ∉ getColumnKeys (deleteColumn s k).row := by
  unfold deleteColumn
  split
  · exact h
  · split
    · exact h
    · intro hmem
      exact h (mem_keys_of_assocDelete hmem)

theorem no_id_key_clear (s : RowState) (h : "id" ∉ getColumnKeys s) :
    "id" ∉ getColumnKeys (clear s).row := by
  unfold clear
  split
  · exact h
  · intro hmem
    rcases mem_keys_of_assocSet hmem with hmem2 | hmem2
    · exact h hmem2
    · exact absurd hmem2 (by decide)

theorem no_id_key_applyOp (s : RowState) (op : RowOp)
    (h : "id" ∉ getColumnKeys s) :
    "id" ∉ getColumnKeys (applyOp s op) := by
  cases op with
  | insertOp k v => exact no_id_key_insertColumn s k v h
  | updateOp k v => exact no_id_key_updateColumn s k v h
  | deleteOp k => exact no_id_key_deleteColumn s k h
  | clearOp => exact no_id_key_clear s h
  | onOp e c => exact h

theorem runOps_invariant (ops : List RowOp) (s : RowState)
    (h : "id" ∉ getColumnKeys s) :
    (runOps s ops).id = s.id ∧ "id" ∉ getColumnKeys (runOps s ops) := by
  induction ops generalizing s with
  | nil => exact ⟨rfl, h⟩
  | cons op t ih =>
    have hstep := ih (applyOp s op) (no_id_key_applyOp s op h)
    refine ⟨?_, hstep.2⟩
    rw [runOps, List.foldl_cons]
    calc (runOps (applyOp s op) t).id = (applyOp s op).id := hstep.1
      _ = s.id := applyOp_id_eq s op

theorem no_id_key_mkDataRow (cols : Columns) (freshId : String) :
    "id" ∉ getColumnKeys (mkDataRow cols freshId) :=
  not_mem_keys_assocDelete cols "id"

theorem insertColumn_fresh (s : RowState) (k : String) (v : ColumnValue)
    (hk : k ≠ "id") (habs : k ∉ getColumnKeys s)
    (hveto : vetoes s.listeners "insertColumn" = false) :
    insertColumn s k v =
      ⟨true, { s with columns := s.columns ++ [(k, v)] },
        [RowEvent.columnEvent "insertColumn" k v,
         RowEvent.columnEvent "afterInsertColumn" k v]⟩ := by
  have hbeq : (k == "id") = false := beq_eq_false_iff_ne.mpr hk
  have hcont : (getColumnKeys s).contains k = false :=
    contains_eq_false_of_not_mem habs
  have habs2 : k ∉ s.columns.map Prod.fst := habs
  unfold insertColumn
  rw [hbeq, hcont, hveto, assocSet_of_not_mem v habs2]
  rfl

theorem insertColumn_existing (s : RowState) (k : String) (w : ColumnValue)
    (hmem : k ∈ getColumnKeys s) :
    insertColumn s k w = ⟨false, s, []⟩ := by
  unfold insertColumn
  rw [contains_eq_true_of_mem hmem, Bool.or_true]
  rfl

theorem updateColumn_fresh (s : RowState) (k : String) (v : ColumnValue)
    (hk : k ≠ "id") (habs : k ∉ getColumnKeys s)
    (hveto : vetoes s.listeners "updateColumn" = false) :
    updateColumn s k v =
      ⟨true, { s with columns := s.columns ++ [(k, v)] },
        [RowEvent.columnEvent "updateColumn" k v,
         RowEvent.columnEvent "afterUpdateColumn" k v]⟩ := by
  have hbeq : (k == "id") = false := beq_eq_false_iff_ne.mpr hk
  have habs2 : k ∉ s.columns.map Prod.fst := habs
  unfold updateColumn
  rw [hbeq, hveto, assocSet_of_not_mem v habs2]
  rfl

theorem lookup_appended_value (l : Columns) (k : String) (v : ColumnValue)
    (habs : k ∉ l.map Prod.fst) :
    ((l ++ [(k, v)]).lookup k).getD ColumnValue.undef = v := by
  rw [lookup_append, lookup_eq_none_of_not_mem l k habs]
  simp [List.lookup_cons]

/-! Helper lemmas about serialisation. -/

theorem keys_map_pair {α β : Type} (l : List (String × α)) (f : α → β) :
    (l.map (fun kv => (kv.1, f kv.2))).map Prod.fst = l.map Prod.fst := by
  rw [List.map_map]
  apply List.map_congr_left
  intro kv _
  rfl

theorem rowToJSON_loop (cols : Columns) :
    ∀ (acc : List (String × JSONValue)),
      (∀ kv ∈ cols, kv.1 ∉ acc.map Prod.fst) →
      (cols.map Prod.fst).Nodup →
      cols.foldl
        (fun json kv =>
          match encodeColumn kv.2 with
          | none => json
          | some j => assocSet json kv.1 j) acc
        = acc ++ cols.filterMap encodeEntry := by
  induction cols with
  | nil =>
    intro acc _ _
    simp
  | cons kv t ih =>
    intro acc hdisj hnd
    rw [List.map_cons, List.nodup_cons] at hnd
    rw [List.foldl_cons]
    cases henc : encodeColumn kv.2 with
    | none =>
      have he : encodeEntry kv = none := by
        unfold encodeEntry
        rw [henc]
        rfl
      rw [List.filterMap_cons_none he]
      exact ih acc (fun kv2 h2 => hdisj kv2 (List.mem_cons_of_mem kv h2)) hnd.2
    | some j =>
      have he : encodeEntry kv = some (kv.1, j) := by
        unfold encodeEntry
        rw [henc]
        rfl
      have hdisj2 : ∀ kv2 ∈ t, kv2.1 ∉ (acc ++ [(kv.1, j)]).map Prod.fst := by
        intro kv2 h2
        rw [List.map_append]
        intro hmem
        rcases List.mem_append.mp hmem with hmem | hmem
        · exact hdisj kv2 (List.mem_cons_of_mem kv h2) hmem
        · rw [List.map_cons, List.map_nil, List.mem_singleton] at hmem
          exact hnd.1 (hmem ▸ List.mem_map.mpr ⟨kv2, h2, rfl⟩)
      have hcong : List.foldl
          (fun json kv2 =>
            match encodeColumn kv2.2 with
            | none => json
            | some j2 => assocSet json kv2.1 j2) (assocSet acc kv.1 j) t
          = List.foldl
          (fun json kv2 =>
            match encodeColumn kv2.2 with
            | none => json
            | some j2 => assocSet json kv2.1 j2) (acc ++ [(kv.1, j)]) t := by
        rw [assocSet_of_not_mem j (hdisj kv (List.mem_cons_self kv t))]
      rw [List.filterMap_cons_some he]
      exact (hcong.trans (ih (acc ++ [(kv.1, j)]) hdisj2 hnd.2)).trans
        (by rw [List.append_assoc]; rfl)

theorem fromJSONLoop_eq (l : List (String × JSONValue)) :
    ∀ (acc : Columns),
      ((l.map Prod.fst).Nodup) →
      (∀ kv ∈ l, kv.1 ∉ acc.map Prod.fst) →
      fromJSONLoop l acc =
        acc ++ (l.filter
          (fun kv => ! firstCharIsUnderscore kv.1)).map decodeEntry := by
  induction l with
  | nil =>
    intro acc _ _
    simp [fromJSONLoop]
  | cons kv t ih =>
    intro acc hnd hdisj
    obtain ⟨k, v⟩ := kv
    rw [List.map_cons, List.nodup_cons] at hnd
    cases hu : firstCharIsUnderscore k with
    | true =>
      have hstep : fromJSONLoop ((k, v) :: t) acc = fromJSONLoop t acc := by
        simp [fromJSONLoop, hu]
      have hpred : ¬ ((fun kv2 => ! firstCharIsUnderscore kv2.1)
          ((k, v) : String × JSONValue) = true) := by
        show ¬ ((! firstCharIsUnderscore k) = true)
        rw [hu]
        decide
      rw [hstep,
        @List.filter_cons_of_neg _ (fun kv2 => ! firstCharIsUnderscore kv2.1)
          (k, v) t hpred]
      exact ih acc hnd.2 (fun kv2 h2 => hdisj kv2 (List.mem_cons_of_mem _ h2))
    | false =>
      have hstep : fromJSONLoop ((k, v) :: t) acc
          = fromJSONLoop t (assocSet acc k (decodeColumn v)) := by
        simp [fromJSONLoop, hu]
      have hpred : ((fun kv2 => ! firstCharIsUnderscore kv2.1)
          ((k, v) : String × JSONValue)) = true := by
        show (! firstCharIsUnderscore k) = true
        rw [hu]
        rfl
      rw [hstep,
        assocSet_of_not_mem (decodeColumn v)
          (hdisj (k, v) (List.mem_cons_self _ _))]
      have hdisj2 : ∀ kv2 ∈ t,
          kv2.1 ∉ (acc ++ [(k, decodeColumn v)]).map Prod.fst := by
        intro kv2 h2
        rw [List.map_append]
        intro hmem
        rcases List.mem_append.mp hmem with hmem | hmem
        · exact hdisj kv2 (List.mem_cons_of_mem _ h2) hmem
        · rw [List.map_cons, List.map_nil, List.mem_singleton] at hmem
          exact hnd.1 (hmem ▸ List.mem_map.mpr ⟨kv2, h2, rfl⟩)
      rw [ih (acc ++ [(k, decodeColumn v)]) hnd.2 hdisj2,
        @List.filter_cons_of_pos _ (fun kv2 => ! firstCharIsUnderscore kv2.1)
          (k, v) t hpred,
        List.map_cons, List.append_assoc]
      rfl

theorem filterMap_encode_decode (cols : Columns)
    (hprim : ∀ kv ∈ cols, isPrimOrDate kv.2 = true) :
    (cols.filterMap encodeEntry).map decodeEntry
      = cols.map primDecayEntry := by
  induction cols with
  | nil => rfl
  | cons kv t ih =>
    have hkv := hprim kv (List.mem_cons_self kv t)
    have ht : ∀ kv2 ∈ t, isPrimOrDate kv2.2 = true :=
      fun kv2 h2 => hprim kv2 (List.mem_cons_of_mem kv h2)
    obtain ⟨k, v⟩ := kv
    cases v with
    | table t0 => simp [isPrimOrDate] at hkv
    | undef => simp [isPrimOrDate] at hkv
    | bool b =>
      rw [List.filterMap_cons_some
        (show encodeEntry (k, ColumnValue.bool b)
          = some (k, JSONValue.bool b) from rfl),
        List.map_cons, List.map_cons, ih ht]
      rfl
    | null =>
      rw [List.filterMap_cons_some
        (show encodeEntry (k, ColumnValue.null)
          = some (k, JSONValue.null) from rfl),
        List.map_cons, List.map_cons, ih ht]
      rfl
    | num n =>
      rw [List.filterMap_cons_some
        (show encodeEntry (k, ColumnValue.num n)
          = some (k, JSONValue.num n) from rfl),
        List.map_cons, List.map_cons, ih ht]
      rfl
    | str t1 =>
      rw [List.filterMap_cons_some
        (show encodeEntry (k, ColumnValue.str t1)
          = some (k, JSONValue.str t1) from rfl),
        List.map_cons, List.map_cons, ih ht]
      rfl
    | date t1 =>
      rw [List.filterMap_cons_some
        (show encodeEntry (k, ColumnValue.date t1)
          = some (k, JSONValue.num t1) from rfl),
        List.map_cons, List.map_cons, ih ht]
      rfl

theorem keys_filterMap_encode_of_prim (cols : Columns)
    (hprim : ∀ kv ∈ cols, isPrimOrDate kv.2 = true) :
    (cols.filterMap encodeEntry).map Prod.fst = cols.map Prod.fst := by
  have h1 := filterMap_encode_decode cols hprim
  have h2 : ((cols.filterMap encodeEntry).map decodeEntry).map Prod.fst
      = (cols.filterMap encodeEntry).map Prod.fst :=
    keys_map_pair (cols.filterMap encodeEntry) decodeColumn
  have h3 : (cols.map primDecayEntry).map Prod.fst = cols.map Prod.fst :=
    keys_map_pair cols primDecay
  rw [← h2, h1, h3]

theorem assocDelete_append_last {α : Type} (l : List (String × α))
    (k : String) (x : α) (h : k ∉ l.map Prod.fst) :
    assocDelete (l ++ [(k, x)]) k = l := by
  unfold assocDelete
  rw [List.filter_append]
  have h1 : l.filter (fun kv => kv.1 != k) = l := by
    apply List.filter_eq_self.mpr
    intro kv hkv
    have hne : kv.1 ≠ k := fun he => h (he ▸ List.mem_map.mpr ⟨kv, hkv, rfl⟩)
    simpa [bne_iff_ne] using hne
  have h2 : ([((k : String), x)].filter (fun kv => kv.1 != k)) = [] := by
    simp
  rw [h1, h2, List.append_nil]

theorem roundTrip_eq (s : RowState) (freshId : String)
    (hnd : (s.columns.map Prod.fst).Nodup)
    (hid : "id" ∉ s.columns.map Prod.fst)
    (hun : ∀ kv ∈ s.columns, firstCharIsUnderscore kv.1 = false)
    (hprim : ∀ kv ∈ s.columns, isPrimOrDate kv.2 = true) :
    roundTrip s freshId =
      ⟨s.id, (s.columns.map primDecayEntry).reverse, []⟩ := by
  have hdiscmem : "_DATA_CLASS_NAME_" ∉ s.columns.map Prod.fst := by
    intro hmem
    rcases List.mem_map.mp hmem with ⟨kv, hkv, hfst⟩
    have hx := hun kv hkv
    rw [hfst] at hx
    exact absurd hx (by decide)
  have hdisj : ∀ kv ∈ s.columns,
      kv.1 ∉ (([("_DATA_CLASS_NAME_", JSONValue.str "DataRow"),
        ("id", JSONValue.str s.id)] :
          List (String × JSONValue)).map Prod.fst) := by
    intro kv hkv hmem
    simp only [List.map_cons, List.map_nil, List.mem_cons,
      List.not_mem_nil, or_false] at hmem
    rcases hmem with h1 | h1
    · exact hdiscmem (h1 ▸ List.mem_map.mpr ⟨kv, hkv, rfl⟩)
    · exact hid (h1 ▸ List.mem_map.mpr ⟨kv, hkv, rfl⟩)
  have hjson : rowToJSON s =
      [("_DATA_CLASS_NAME_", JSONValue.str "DataRow"),
       ("id", JSONValue.str s.id)] ++ s.columns.filterMap encodeEntry :=
    rowToJSON_loop s.columns _ hdisj hnd
  have hkeys : (s.columns.filterMap encodeEntry).map Prod.fst
      = s.columns.map Prod.fst :=
    keys_filterMap_encode_of_prim s.columns hprim
  have hjrev : (rowToJSON s).reverse =
      (s.columns.filterMap encodeEntry).reverse ++
        [("id", JSONValue.str s.id),
         ("_DATA_CLASS_NAME_", JSONValue.str "DataRow")] := by
    rw [hjson, List.reverse_append]
    rfl
  have hndrev : ((((s.columns.filterMap encodeEntry).reverse ++
      [("id", JSONValue.str s.id),
       ("_DATA_CLASS_NAME_", JSONValue.str "DataRow")]) :
        List (String × JSONValue)).map Prod.fst).Nodup := by
    rw [List.map_append, List.map_reverse, hkeys]
    apply List.Nodup.append
    · exact List.nodup_reverse.mpr hnd
    · show (["id", "_DATA_CLASS_NAME_"] : List String).Nodup
      decide
    · intro a ha hb
      rw [List.mem_reverse] at ha
      have hb2 : a ∈ (["id", "_DATA_CLASS_NAME_"] : List String) := hb
      rcases List.mem_cons.mp hb2 with h1 | h1
      · exact hid (h1 ▸ ha)
      · rw [List.mem_singleton] at h1
        exact hdiscmem (h1 ▸ ha)
  have hfil : (((s.columns.filterMap encodeEntry).reverse ++
      [("id", JSONValue.str s.id),
       ("_DATA_CLASS_NAME_", JSONValue.str "DataRow")]).filter
        (fun kv => ! firstCharIsUnderscore kv.1)) =
      (s.columns.filterMap encodeEntry).reverse ++
        [("id", JSONValue.str s.id)] := by
    rw [List.filter_append]
    have h1 : (s.columns.filterMap encodeEntry).reverse.filter
        (fun kv => ! firstCharIsUnderscore kv.1) =
        (s.columns.filterMap encodeEntry).reverse := by
      apply List.filter_eq_self.mpr
      intro kv hkv
      rw [List.mem_reverse] at hkv
      have hk : kv.1 ∈ s.columns.map Prod.fst := by
        rw [← hkeys]
        exact List.mem_map.mpr ⟨kv, hkv, rfl⟩
      rcases List.mem_map.mp hk with ⟨kv0, hkv0, hfst⟩
      have hx := hun kv0 hkv0
      rw [hfst] at hx
      show (! firstCharIsUnderscore kv.1) = true
      rw [hx]
      rfl
    have h2 : (([("id", JSONValue.str s.id),
        ("_DATA_CLASS_NAME_", JSONValue.str "DataRow")] :
          List (String × JSONValue)).filter
        (fun kv => ! firstCharIsUnderscore kv.1)) =
        [("id", JSONValue.str s.id)] := by
      rw [@List.filter_cons_of_pos _ (fun kv => ! firstCharIsUnderscore kv.1)
          ("id", JSONValue.str s.id)
          [("_DATA_CLASS_NAME_", JSONValue.str "DataRow")] (by exact rfl),
        @List.filter_cons_of_neg _ (fun kv => ! firstCharIsUnderscore kv.1)
          ("_DATA_CLASS_NAME_", JSONValue.str "DataRow") []
          (by intro hx; exact Bool.noConfusion hx)]
      rfl
    rw [h1, h2]
  have hloop : fromJSONLoop ((rowToJSON s).reverse) [] =
      ((s.columns.filterMap encodeEntry).reverse ++
        [("id", JSONValue.str s.id)]).map decodeEntry := by
    rw [hjrev]
    rw [fromJSONLoop_eq _ [] hndrev (by simp)]
    rw [hfil]
    rfl
  have hmapped : (((s.columns.filterMap encodeEntry).reverse ++
      [("id", JSONValue.str s.id)]).map decodeEntry) =
      (s.columns.map primDecayEntry).reverse ++
        [("id", ColumnValue.str s.id)] := by
    rw [List.map_append, List.map_reverse,
      filterMap_encode_decode s.columns hprim]
    rfl
  have hkeysPrim : (s.columns.map primDecayEntry).map Prod.fst
      = s.columns.map Prod.fst :=
    keys_map_pair s.columns primDecay
  have hidkeys : "id" ∉ ((s.columns.map primDecayEntry).reverse).map Prod.fst := by
    rw [List.map_reverse, hkeysPrim, List.mem_reverse]
    exact hid
  have hlook : (((s.columns.map primDecayEntry).reverse ++
      [("id", ColumnValue.str s.id)]).lookup "id")
      = some (ColumnValue.str s.id) := by
    rw [lookup_append, lookup_eq_none_of_not_mem _ "id" hidkeys]
    rfl
  have hdel : assocDelete ((s.columns.map primDecayEntry).reverse ++
      [("id", ColumnValue.str s.id)]) "id"
      = (s.columns.map primDecayEntry).reverse :=
    assocDelete_append_last _ "id" _ hidkeys
  show mkDataRow (fromJSONLoop ((rowToJSON s).reverse) []) freshId = _
  rw [hloop, hmapped]
  unfold mkDataRow
  rw [hlook, hdel]

/-! The claim theorems. -/

/-- Claim C1 (code bug): the claim says clear() leaves the row with no
columns and the id unchanged.  The code instead runs columns.length = 0 on
a plain record, which adds a column named length with value 0 and removes
nothing: on a row with the single column a, clear() reports success and
the row afterwards has the two columns a and length while the id is
indeed unchanged. -/
theorem c1_clear_adds_length_column :
    (clear (mkDataRow [("a", ColumnValue.num 1)] "r1")).succeeded = true ∧
    (clear (mkDataRow [("a", ColumnValue.num 1)] "r1")).row.id = "r1" ∧
    getColumnCount (clear (mkDataRow [("a", ColumnValue.num 1)] "r1")).row
      = 2 ∧
    getColumnKeys (clear (mkDataRow [("a", ColumnValue.num 1)] "r1")).row
      = ["a", "length"] := by
  refine ⟨rfl, rfl, rfl, rfl⟩

/-- Claim C3: for every row state and value, insertColumn, updateColumn and
deleteColumn on the key id return false, emit no event, and leave the row
(columns and id) unchanged. -/
theorem c3_id_key_rejected (s : RowState) (v : ColumnValue) :
    insertColumn s "id" v = ⟨false, s, []⟩ ∧
    updateColumn s "id" v = ⟨false, s, []⟩ ∧
    deleteColumn s "id" = ⟨false, s, []⟩ := by
  refine ⟨?_, ?_, ?_⟩
  · unfold insertColumn
    rw [beq_self_eq_true, Bool.true_or]
    rfl
  · unfold updateColumn
    rw [beq_self_eq_true]
    rfl
  · unfold deleteColumn
    rw [beq_self_eq_true]
    rfl

/-- Claim C4: starting from any constructed row, after any sequence of
public operations (insertColumn, updateColumn, deleteColumn, clear, on)
the key id is not among the column keys and the id field still has the
value set at construction. -/
theorem c4_id_invariant (cols : Columns) (freshId : String)
    (ops : List RowOp) :
    (runOps (mkDataRow cols freshId) ops).id = (mkDataRow cols freshId).id ∧
    "id" ∉ getColumnKeys (runOps (mkDataRow cols freshId) ops) :=
  runOps_invariant ops (mkDataRow cols freshId)
    (no_id_key_mkDataRow cols freshId)

/-- Claim C5: on a fresh non-id key with no vetoing listener, insertColumn
returns true and getColumn then yields the inserted value; a second
insertColumn on the same key returns false and the stored value is
unchanged. -/
theorem c5_insert_then_duplicate (s : RowState) (k : String)
    (v w : ColumnValue) (hk : k ≠ "id") (habs : k ∉ getColumnKeys s)
    (hveto : vetoes s.listeners "insertColumn" = false) :
    (insertColumn s k v).succeeded = true ∧
    getColumn (insertColumn s k v).row k = v ∧
    (insertColumn (insertColumn s k v).row k w).succeeded = false ∧
    getColumn (insertColumn (insertColumn s k v).row k w).row k = v := by
  have habs2 : k ∉ s.columns.map Prod.fst := habs
  have h1 := insertColumn_fresh s k v hk habs hveto
  have hget1 : getColumn (insertColumn s k v).row k = v := by
    rw [h1]
    exact lookup_appended_value s.columns k v habs2
  have hmem1 : k ∈ getColumnKeys (insertColumn s k v).row := by
    rw [h1]
    show k ∈ (s.columns ++ [(k, v)]).map Prod.fst
    rw [List.map_append]
    exact List.mem_append.mpr (Or.inr (by simp))
  have h2 := insertColumn_existing (insertColumn s k v).row k w hmem1
  refine ⟨by rw [h1], hget1, by rw [h2], ?_⟩
  rw [h2]
  exact hget1

/-- Claim C5 witness: the concrete scenario on an empty row with key a. -/
theorem c5_witness :
    (insertColumn (mkDataRow [] "x") "a" (ColumnValue.num 1)).succeeded
      = true ∧
    getColumn (insertColumn (mkDataRow [] "x") "a"
      (ColumnValue.num 1)).row "a" = ColumnValue.num 1 ∧
    (insertColumn (insertColumn (mkDataRow [] "x") "a"
      (ColumnValue.num 1)).row "a" (ColumnValue.num 2)).succeeded = false ∧
    getColumn (insertColumn (insertColumn (mkDataRow [] "x") "a"
      (ColumnValue.num 1)).row "a" (ColumnValue.num 2)).row "a"
      = ColumnValue.num 1 :=
  c5_insert_then_duplicate (mkDataRow [] "x") "a" (ColumnValue.num 1)
    (ColumnValue.num 2) (by decide) (by decide) (by decide)

/-- Claim C7: deleting an absent non-id key with no vetoing listener fires
the deleteColumn pre-event and the afterDeleteColumn post-event (both with
value undefined), returns true, and leaves the column mapping unchanged. -/
theorem c7_delete_absent_key (s : RowState) (k : String) (hk : k ≠ "id")
    (habs : k ∉ getColumnKeys s)
    (hveto : vetoes s.listeners "deleteColumn" = false) :
    deleteColumn s k =
      ⟨true, s,
        [RowEvent.columnEvent "deleteColumn" k ColumnValue.undef,
         RowEvent.columnEvent "afterDeleteColumn" k ColumnValue.undef]⟩ := by
  have hbeq : (k == "id") = false := beq_eq_false_iff_ne.mpr hk
  have habs2 : k ∉ s.columns.map Prod.fst := habs
  have hval : getColumn s k = ColumnValue.undef := by
    unfold getColumn
    rw [lookup_eq_none_of_not_mem s.columns k habs2]
    rfl
  unfold deleteColumn
  rw [hbeq, hveto, hval, assocDelete_of_not_mem habs2]
  rfl

/-- Claim C7 witness: deleting the absent key b on a row holding only a. -/
theorem c7_witness :
    deleteColumn (mkDataRow [("a", ColumnValue.null)] "x") "b" =
      ⟨true, mkDataRow [("a", ColumnValue.null)] "x",
        [RowEvent.columnEvent "deleteColumn" "b" ColumnValue.undef,
         RowEvent.columnEvent "afterDeleteColumn" "b" ColumnValue.undef]⟩ :=
  c7_delete_absent_key (mkDataRow [("a", ColumnValue.null)] "x") "b"
    (by decide) (by decide) (by decide)

/-- Claim C8: a registered listener that cancels the insertColumn pre-event
makes insertColumn on a fresh key return false with the key still absent
afterwards; and in general a vetoed pre-event on any mutator means the
default action does not run (the state is returned unchanged) and the call
returns false. -/
theorem c8_veto_prevents_mutation (s : RowState) (k : String)
    (v : ColumnValue) (habs : k ∉ getColumnKeys s) :
    ((insertColumn (onEvent s "insertColumn" true) k v).succeeded = false ∧
      k ∉ getColumnKeys (insertColumn (onEvent s "insertColumn" true) k v).row) ∧
    (vetoes s.listeners "insertColumn" = true → ∀ k2 v2,
      (insertColumn s k2 v2).succeeded = false ∧
      (insertColumn s k2 v2).row = s) ∧
    (vetoes s.listeners "updateColumn" = true → ∀ k2 v2,
      (updateColumn s k2 v2).succeeded = false ∧
      (updateColumn s k2 v2).row = s) ∧
    (vetoes s.listeners "deleteColumn" = true → ∀ k2,
      (deleteColumn s k2).succeeded = false ∧ (deleteColumn s k2).row = s) ∧
    (vetoes s.listeners "clearRow" = true →
      (clear s).succeeded = false ∧ (clear s).row = s) := by
  have hveto2 : vetoes (onEvent s "insertColumn" true).listeners
      "insertColumn" = true := by
    show vetoes (s.listeners ++ [⟨"insertColumn", true⟩]) "insertColumn"
      = true
    unfold vetoes
    rw [List.any_append]
    have hone : ([(⟨"insertColumn", true⟩ : Listener)].any
        (fun l => l.event == "insertColumn" && l.cancels)) = true := rfl
    rw [hone, Bool.or_true]
  have hmain := insertColumn_vetoed (onEvent s "insertColumn" true) k v hveto2
  refine ⟨⟨hmain.1, ?_⟩,
    fun h k2 v2 => insertColumn_vetoed s k2 v2 h,
    fun h k2 v2 => updateColumn_vetoed s k2 v2 h,
    fun h k2 => deleteColumn_vetoed s k2 h,
    fun h => clear_vetoed s h⟩
  rw [hmain.2]
  exact habs

/-- Claim C8 witness: the canceling listener scenario at key a on an empty
row, together with one vetoed updateColumn call. -/
theorem c8_witness :
    ((insertColumn (onEvent (mkDataRow [] "x") "insertColumn" true) "a"
        (ColumnValue.num 1)).succeeded = false ∧
      "a" ∉ getColumnKeys (insertColumn (onEvent (mkDataRow [] "x")
        "insertColumn" true) "a" (ColumnValue.num 1)).row) ∧
    (vetoes (mkDataRow [] "x").listeners "insertColumn" = true → ∀ k2 v2,
      (insertColumn (mkDataRow [] "x") k2 v2).succeeded = false ∧
      (insertColumn (mkDataRow [] "x") k2 v2).row = mkDataRow [] "x") ∧
    (vetoes (mkDataRow [] "x").listeners "updateColumn" = true → ∀ k2 v2,
      (updateColumn (mkDataRow [] "x") k2 v2).succeeded = false ∧
      (updateColumn (mkDataRow [] "x") k2 v2).row = mkDataRow [] "x") ∧
    (vetoes (mkDataRow [] "x").listeners "deleteColumn" = true → ∀ k2,
      (deleteColumn (mkDataRow [] "x") k2).succeeded = false ∧
      (deleteColumn (mkDataRow [] "x") k2).row = mkDataRow [] "x") ∧
    (vetoes (mkDataRow [] "x").listeners "clearRow" = true →
      (clear (mkDataRow [] "x")).succeeded = false ∧
      (clear (mkDataRow [] "x")).row = mkDataRow [] "x") :=
  c8_veto_prevents_mutation (mkDataRow [] "x") "a" (ColumnValue.num 1)
    (by decide)

/-- Claim C10: updateColumn on a key that is absent and different from id,
with no vetoing listener, acts as an upsert: it returns true and getColumn
afterwards yields the new value. -/
theorem c10_update_absent_inserts (s : RowState) (k : String)
    (v : ColumnValue) (hk : k ≠ "id") (habs : k ∉ getColumnKeys s)
    (hveto : vetoes s.listeners "updateColumn" = false) :
    (updateColumn s k v).succeeded = true ∧
    getColumn (updateColumn s k v).row k = v := by
  have habs2 : k ∉ s.columns.map Prod.fst := habs
  have h1 := updateColumn_fresh s k v hk habs hveto
  refine ⟨by rw [h1], ?_⟩
  rw [h1]
  exact lookup_appended_value s.columns k v habs2

/-- Claim C10 witness: updating the never-inserted key a on an empty
row. -/
theorem c10_witness :
    (updateColumn (mkDataRow [] "x") "a" (ColumnValue.str "v")).succeeded
      = true ∧
    getColumn (updateColumn (mkDataRow [] "x") "a"
      (ColumnValue.str "v")).row "a" = ColumnValue.str "v" :=
  c10_update_absent_inserts (mkDataRow [] "x") "a" (ColumnValue.str "v")
    (by decide) (by decide) (by decide)

/-- Claim C2 counterexample: the claim as stated fails for a column key
whose first character is an underscore, because fromJSON skips such keys.
The row with id x and the single number column under the key beginning
with an underscore loses that column across the round trip. -/
theorem c2_counterexample :
    getColumn (⟨"x", [("_a", ColumnValue.num 1)], []⟩ : RowState) "_a"
      = ColumnValue.num 1 ∧
    (roundTrip ⟨"x", [("_a", ColumnValue.num 1)], []⟩ "fresh").id = "x" ∧
    getColumnKeys (roundTrip ⟨"x", [("_a", ColumnValue.num 1)], []⟩ "fresh")
      = [] ∧
    getColumn (roundTrip ⟨"x", [("_a", ColumnValue.num 1)], []⟩ "fresh") "_a"
      = ColumnValue.undef :=
  ⟨rfl, rfl, rfl, rfl⟩

/-- Claim C2 (amended: no column key starts with an underscore): for every
row whose column keys are pairwise distinct, do not contain id, and do not
start with an underscore, and whose values are booleans, null, numbers,
strings or Dates, the round trip fromJSON(toJSON) keeps the id, keeps the
column key set, maps every stored value through the decay that sends a
Date to its getTime number and keeps everything else, and in particular
turns every Date column into the plain number. -/
theorem c2_roundtrip_primitive (s : RowState) (freshId : String)
    (hnd : (s.columns.map Prod.fst).Nodup)
    (hid : "id" ∉ s.columns.map Prod.fst)
    (hun : ∀ kv ∈ s.columns, firstCharIsUnderscore kv.1 = false)
    (hprim : ∀ kv ∈ s.columns, isPrimOrDate kv.2 = true) :
    (roundTrip s freshId).id = s.id ∧
    (∀ k, getColumn (roundTrip s freshId) k = primDecay (getColumn s k)) ∧
    List.Perm (getColumnKeys (roundTrip s freshId)) (getColumnKeys s) ∧
    (∀ k t, getColumn s k = ColumnValue.date t →
      getColumn (roundTrip s freshId) k = ColumnValue.num t) := by
  have heq := roundTrip_eq s freshId hnd hid hun hprim
  have hkeysPrim : (s.columns.map primDecayEntry).map Prod.fst
      = s.columns.map Prod.fst :=
    keys_map_pair s.columns primDecay
  have hget : ∀ k, getColumn (roundTrip s freshId) k
      = primDecay (getColumn s k) := by
    intro k
    rw [heq]
    show (((s.columns.map primDecayEntry).reverse).lookup k).getD
        ColumnValue.undef
      = primDecay ((s.columns.lookup k).getD ColumnValue.undef)
    rw [lookup_reverse_of_nodup _ (by rw [hkeysPrim]; exact hnd) k]
    rw [show (s.columns.map primDecayEntry).lookup k
        = (s.columns.lookup k).map primDecay from
      lookup_map_value s.columns primDecay k]
    cases s.columns.lookup k with
    | none => rfl
    | some v => rfl
  refine ⟨by rw [heq], hget, ?_, ?_⟩
  · rw [heq]
    show List.Perm (((s.columns.map primDecayEntry).reverse).map Prod.fst)
      (s.columns.map Prod.fst)
    rw [List.map_reverse, hkeysPrim]
    exact List.reverse_perm _
  · intro k t hdate
    rw [hget k, hdate]
    rfl

/-- Claim C2 witness: the round trip on a concrete row holding one column
of each primitive kind and a Date column. -/
theorem c2_witness :
    (roundTrip sampleRow "fresh").id = sampleRow.id ∧
    getColumn (roundTrip sampleRow "fresh") "b" = ColumnValue.num 5 ∧
    List.Perm (getColumnKeys (roundTrip sampleRow "fresh"))
      (getColumnKeys sampleRow) := by
  have h := c2_roundtrip_primitive sampleRow "fresh"
    (by decide) (by decide) (by decide) (by decide)
  exact ⟨h.1, h.2.2.2 "b" 5 rfl, h.2.2.1⟩

/-- Claim C6 counterexample: the claim as stated fails for a row holding a
column literally named after the discriminator field, because the toJSON
loop assigns json[key] and overwrites the discriminator: the output then
carries the boolean false where the discriminator string DataRow should
identify the structure as a row. -/
theorem c6_counterexample :
    ((rowToJSON ⟨"x", [("_DATA_CLASS_NAME_", ColumnValue.bool false)],
      []⟩).lookup "_DATA_CLASS_NAME_") = some (JSONValue.bool false) ∧
    ¬ ((some (JSONValue.bool false) : Option JSONValue)
      = some (JSONValue.str "DataRow")) :=
  ⟨rfl, fun h => nomatch h⟩

/-- Claim C6 (amended: no column is named after the discriminator field):
for every row whose column keys are pairwise distinct and contain neither
id nor the discriminator name, toJSON is exactly the object that starts
with the discriminator field and the id and then holds, per column in
enumeration order, the encoding the spec describes: undefined omitted,
null, boolean, number and string verbatim, a Date as its epoch-millisecond
number, a Table via its own toJSON.  The result lives in the JSON value
type, which by construction contains no Date and no Table object. -/
theorem c6_toJSON_shape (s : RowState)
    (hnd : (s.columns.map Prod.fst).Nodup)
    (hid : "id" ∉ s.columns.map Prod.fst)
    (hdisc : "_DATA_CLASS_NAME_" ∉ s.columns.map Prod.fst) :
    rowToJSON s =
      ("_DATA_CLASS_NAME_", JSONValue.str "DataRow") ::
        ("id", JSONValue.str s.id) ::
        s.columns.filterMap specEncodeEntry := by
  have hfun : encodeEntry = specEncodeEntry :=
    funext (fun kv => by
      obtain ⟨k, v⟩ := kv
      cases v <;> rfl)
  have hdisj : ∀ kv ∈ s.columns,
      kv.1 ∉ (([("_DATA_CLASS_NAME_", JSONValue.str "DataRow"),
        ("id", JSONValue.str s.id)] :
          List (String × JSONValue)).map Prod.fst) := by
    intro kv hkv hmem
    simp only [List.map_cons, List.map_nil, List.mem_cons,
      List.not_mem_nil, or_false] at hmem
    rcases hmem with h1 | h1
    · exact hdisc (h1 ▸ List.mem_map.mpr ⟨kv, hkv, rfl⟩)
    · exact hid (h1 ▸ List.mem_map.mpr ⟨kv, hkv, rfl⟩)
  have h1 := rowToJSON_loop s.columns
    [("_DATA_CLASS_NAME_", JSONValue.str "DataRow"),
     ("id", JSONValue.str s.id)] hdisj hnd
  rw [hfun] at h1
  exact h1

/-- Claim C6 witness: the serialised shape of a concrete row holding a
number, a Date, a nested table and an undefined value. -/
theorem c6_witness :
    rowToJSON sampleRowFull =
      ("_DATA_CLASS_NAME_", JSONValue.str "DataRow") ::
        ("id", JSONValue.str sampleRowFull.id) ::
        sampleRowFull.columns.filterMap specEncodeEntry :=
  c6_toJSON_shape sampleRowFull (by decide) (by decide) (by decide)

/-- Claim C9: getAllColumns hands out a fresh copy of the column record;
the copy has the same content as the internal record, and after any
mutation written through the returned reference (adding, removing or
reassigning entries), reading any column of the row through its own
reference is unchanged. -/
theorem c9_getAllColumns_copy (h : Heap) (row : RowRef)
    (hvalid : row.colRef < h.cells.length) (mutate : Columns → Columns)
    (k : String) :
    Heap.read (getAllColumnsAlloc h row).2 (getAllColumnsAlloc h row).1
      = Heap.read h row.colRef ∧
    getColumnRef
      (Heap.write (getAllColumnsAlloc h row).2 (getAllColumnsAlloc h row).1
        (mutate (Heap.read (getAllColumnsAlloc h row).2
          (getAllColumnsAlloc h row).1)))
      row k
      = getColumnRef h row k := by
  have hne : h.cells.length ≠ row.colRef := (Nat.ne_of_lt hvalid).symm
  have hread : Heap.read (getAllColumnsAlloc h row).2
      (getAllColumnsAlloc h row).1 = Heap.read h row.colRef := by
    show (h.cells ++ [h.read row.colRef]).getD h.cells.length []
      = Heap.read h row.colRef
    rw [List.getD_append_right h.cells [h.read row.colRef] []
      h.cells.length (Nat.le_refl h.cells.length), Nat.sub_self]
    rfl
  refine ⟨hread, ?_⟩
  have hrw : Heap.read
      (Heap.write (getAllColumnsAlloc h row).2 (getAllColumnsAlloc h row).1
        (mutate (Heap.read (getAllColumnsAlloc h row).2
          (getAllColumnsAlloc h row).1)))
      row.colRef = Heap.read h row.colRef := by
    show ((h.cells ++ [h.read row.colRef]).set h.cells.length
        (mutate (Heap.read (getAllColumnsAlloc h row).2
          (getAllColumnsAlloc h row).1))).getD row.colRef []
      = h.cells.getD row.colRef []
    rw [List.getD_eq_getElem?_getD, List.getElem?_set_ne hne,
      List.getElem?_append_left hvalid, ← List.getD_eq_getElem?_getD]
  show ((Heap.read
      (Heap.write (getAllColumnsAlloc h row).2 (getAllColumnsAlloc h row).1
        (mutate (Heap.read (getAllColumnsAlloc h row).2
          (getAllColumnsAlloc h row).1)))
      row.colRef).lookup k).getD ColumnValue.undef
    = getColumnRef h row k
  rw [hrw]
  rfl

/-- Claim C9 witness: a one-cell heap whose row holds the column a, with
the mutation that reassigns a through the returned copy. -/
theorem c9_witness :
    Heap.read
      (getAllColumnsAlloc ⟨[[("a", ColumnValue.num 1)]]⟩ ⟨0⟩).2
      (getAllColumnsAlloc ⟨[[("a", ColumnValue.num 1)]]⟩ ⟨0⟩).1
      = Heap.read ⟨[[("a", ColumnValue.num 1)]]⟩ 0 ∧
    getColumnRef
      (Heap.write (getAllColumnsAlloc ⟨[[("a", ColumnValue.num 1)]]⟩ ⟨0⟩).2
        (getAllColumnsAlloc ⟨[[("a", ColumnValue.num 1)]]⟩ ⟨0⟩).1
        ((fun c => assocSet c "a" (ColumnValue.num 2))
          (Heap.read (getAllColumnsAlloc ⟨[[("a", ColumnValue.num 1)]]⟩
              ⟨0⟩).2
            (getAllColumnsAlloc ⟨[[("a", ColumnValue.num 1)]]⟩ ⟨0⟩).1)))
      ⟨0⟩ "a"
      = getColumnRef ⟨[[("a", ColumnValue.num 1)]]⟩ ⟨0⟩ "a" :=
  c9_getAllColumns_copy ⟨[[("a", ColumnValue.num 1)]]⟩ ⟨0⟩ (by decide)
    (fun c => assocSet c "a" (ColumnValue.num 2)) "a"

end DataRowSpec
